import Mathlib

/-!
Shallow embedding of the Waqiti internal reference validator
(`src/services/validate_references.py` and the registry-building part of
`src/services/deep_validation.py`).

Files are modelled by the data the tool's regular-expression extraction
yields from their text (package declaration, primary type declaration,
annotation markers, import statements, injection sites, call sites); every
membership test, branch and report computation downstream of that extraction
is translated directly from the Python source, statement by statement.
-/

set_option autoImplicit false

namespace Waqiti

/-- Python `needle in hay` substring containment on strings. -/
def strContains (hay needle : String) : Bool :=
  decide (needle.data <:+: hay.data)

/-- Python `s.endswith(suffix)`. -/
def strEndsWith (s suffix : String) : Bool :=
  decide (suffix.data <:+ s.data)

/-- Python `s.startswith(pre)`. -/
def strStartsWith (s pre : String) : Bool :=
  decide (pre.data <+: s.data)

/-- The internal namespace marker: the literal the validator tests with
`in` on every import / bean type (validate_references.py lines 125, 233, 240, 346). -/
def waqitiNs : String := "com.waqiti"

/-- Python `dict` assignment `d[k] = v`: updates the value in place if the key
exists (keeping its insertion position), otherwise appends a new entry. -/
def dictInsert {V : Type} (k : String) (v : V) : List (String × V) → List (String × V)
  | [] => [(k, v)]
  | (k', v') :: rest => if k' = k then (k', v) :: rest else (k', v') :: dictInsert k v rest

/-- Python `k in d` key-membership test on a dict. -/
def hasKey {V : Type} (d : List (String × V)) (k : String) : Bool :=
  (List.lookup k d).isSome

/-- Python `set.add`: insertion-ordered set of strings. -/
def setInsert (x : String) (s : List String) : List String :=
  if x ∈ s then s else s ++ [x]

/-- Python `defaultdict(set)` update `d[k].add(x)`. -/
def mdictAdd (k x : String) : List (String × List String) → List (String × List String)
  | [] => [(k, [x])]
  | (k', xs) :: rest =>
      if k' = k then (k', setInsert x xs) :: rest else (k', xs) :: mdictAdd k x rest

/-- Python `d.get(k, set())` on a `defaultdict(set)` read without insertion. -/
def mdictGet (d : List (String × List String)) (k : String) : List String :=
  (List.lookup k d).getD []

/-- The `BrokenReference` dataclass (validate_references.py lines 15-25). -/
structure BrokenReference where
  source_file : String
  line_number : Nat
  reference_type : String
  target : String
  expected : String
  actual : String
  severity : String
  impact : String
  recommended_fix : String
deriving DecidableEq, Repr

/-- The per-Feign-client record stored in `self.feign_clients`
(validate_references.py lines 86-90).  The stored raw `content` is consulted
again only by the `fallback = X.class` search of phase 4 (line 286), so it is
modelled by that search's result. -/
structure FeignInfo where
  file : String
  serviceName : String
  fallbackDecl : Option String
deriving DecidableEq, Repr

/-- One physical line of a file as seen by `validate_imports` (lines 119-128):
either it matches `import ([\w.]+);` at the start of the stripped line,
capturing the dotted name, together with whether the stripped line ends in
`*;` — or it is any other line. -/
inductive SrcLine where
  | imp (cls : String) (endsWildcard : Bool)
  | other
deriving DecidableEq, Repr

/-- One `@Autowired`/`@Inject` field-injection match (lines 223-230):
`fieldBase` is the declared field type with generic parameters already
stripped (the value of `base_type` after line 230); `lineNum` the 1-based
line computed from the match offset. -/
structure BeanSite where
  fieldBase : String
  lineNum : Nat
deriving DecidableEq, Repr

/-- One call-site match of a variable-name pattern from the fixed catalogue
(lines 168-193): the variable name, the captured invoked method name, and
the 1-based line of the match. -/
structure CallSite where
  varName : String
  methodName : String
  lineNum : Nat
deriving DecidableEq, Repr

/-- One `.java` file of the corpus, modelled by the results of the tool's
regular-expression extraction from its text:
* `packageName` — the first `package ([\w.]+);` match (lines 61, 337);
* `classDecl` — the first `(public )?(class|interface|enum) (\w+)` match:
  whether the `public` group matched, and the simple name (lines 62, 338);
* `hasComponent`/`hasService`/`hasRepository` — presence of the three
  annotation markers (lines 76-81);
* `feignName` — the `@FeignClient(... name="...")` capture (line 84);
* `fallbackDecl` — the first `fallback = (\w+).class` capture (line 286);
* `methodDecls` — the method-shaped pattern captures in order (lines 93-95);
* `srcLines` — the physical lines, for `validate_imports`;
* `contentImports` — all `import ([\w.]+);` matches over the whole content
  in order (lines 235, 344);
* `beanSites` / `callSites` — the injection-site and call-site matches. -/
structure JavaFile where
  path : String
  packageName : Option String := none
  classDecl : Option (Bool × String) := none
  hasComponent : Bool := false
  hasService : Bool := false
  hasRepository : Bool := false
  feignName : Option String := none
  fallbackDecl : Option String := none
  methodDecls : List String := []
  srcLines : List SrcLine := []
  contentImports : List String := []
  beanSites : List BeanSite := []
  callSites : List CallSite := []
deriving DecidableEq, Repr

/-- The caches built by phase 0 (validate_references.py lines 42-49). -/
structure SymbolTable where
  classRegistry : List (String × String) := []
  publicClasses : List String := []
  componentClasses : List String := []
  serviceClasses : List String := []
  repositoryClasses : List String := []
  feignClients : List (String × FeignInfo) := []
  classMethods : List (String × List String) := []
deriving DecidableEq, Repr

/-- The keyword denylist of the method scan (line 96). -/
def methodKeywords : List String := ["class", "if", "for", "while", "switch"]

/-- The method-signature scan of phase 0 (lines 93-97): add every captured
method name that is not a control-flow keyword to the class's method set. -/
def scanMethods (fq : String) (names : List String) (m : List (String × List String)) :
    List (String × List String) :=
  names.foldl (fun acc nm => if nm ∈ methodKeywords then acc else mdictAdd fq nm acc) m

/-- Processing of one file by `scan_all_classes` (lines 55-97): when both the
package and the primary type declaration matched, register the fully
qualified name and all derived indices. -/
def scanFile (st : SymbolTable) (f : JavaFile) : SymbolTable :=
  match f.packageName, f.classDecl with
  | some pkg, some pc =>
      let fq := pkg ++ "." ++ pc.2
      { classRegistry := dictInsert fq f.path st.classRegistry
        publicClasses := if pc.1 then setInsert fq st.publicClasses else st.publicClasses
        componentClasses :=
          if f.hasComponent then setInsert fq st.componentClasses else st.componentClasses
        serviceClasses :=
          if f.hasService then setInsert fq st.serviceClasses else st.serviceClasses
        repositoryClasses :=
          if f.hasRepository then setInsert fq st.repositoryClasses else st.repositoryClasses
        feignClients :=
          match f.feignName with
          | some sn =>
              dictInsert fq
                { file := f.path, serviceName := sn, fallbackDecl := f.fallbackDecl }
                st.feignClients
          | none => st.feignClients
        classMethods := scanMethods fq f.methodDecls st.classMethods }
  | _, _ => st

/-- Phase 0, `ReferenceValidator.scan_all_classes` (lines 51-97): fold the
per-file registration over the corpus in enumeration order.  Note: the
source applies no path filter here — every file of the walk is scanned. -/
def scanAllClasses (files : List JavaFile) : SymbolTable :=
  files.foldl scanFile {}

/-- The `MissingImport` finding (lines 129-139). -/
def mkMissingImport (path : String) (n : Nat) (cls : String) : BrokenReference :=
  { source_file := path
    line_number := n
    reference_type := "IMPORT"
    target := cls
    expected := "Class " ++ cls ++ " should exist"
    actual := "Class not found in codebase"
    severity := "ERROR"
    impact := "Compilation will fail"
    recommended_fix := "Remove import or create class " ++ cls }

/-- The `NonPublicImport` finding (lines 142-152). -/
def mkNonPublicImport (path : String) (n : Nat) (cls : String) : BrokenReference :=
  { source_file := path
    line_number := n
    reference_type := "IMPORT"
    target := cls
    expected := "Class " ++ cls ++ " should be public"
    actual := "Class is not public"
    severity := "WARNING"
    impact := "May cause compilation issues"
    recommended_fix := "Make class public or adjust visibility" }

/-- Phase 1 treatment of one line (lines 119-152): on an import match whose
dotted name contains the internal marker, a missing class yields a
`MissingImport` error (unless the stripped line ends in a wildcard), and a
present but non-public class yields a `NonPublicImport` warning. -/
def importLineFindings (st : SymbolTable) (path : String) (n : Nat) :
    SrcLine → List BrokenReference
  | SrcLine.other => []
  | SrcLine.imp cls endsWildcard =>
      if strContains cls waqitiNs then
        if hasKey st.classRegistry cls then
          if cls ∉ st.publicClasses then [mkNonPublicImport path n cls] else []
        else
          if ¬ endsWildcard then [mkMissingImport path n cls] else []
      else []

/-- The `enumerate(lines, 1)` loop of phase 1: lines are numbered from 1. -/
def validateImportsAux (st : SymbolTable) (path : String) :
    Nat → List SrcLine → List BrokenReference
  | _, [] => []
  | n, l :: rest => importLineFindings st path n l ++ validateImportsAux st path (n + 1) rest

/-- Phase 1 body for one file (lines 114-152). -/
def validateImportsLines (st : SymbolTable) (path : String) (lines : List SrcLine) :
    List BrokenReference :=
  validateImportsAux st path 1 lines

/-- Phase 1, `ReferenceValidator.validate_imports` (lines 109-161). -/
def validateImports (st : SymbolTable) (files : List JavaFile) : List BrokenReference :=
  (files.map (fun f => validateImportsLines st f.path f.srcLines)).flatten

/-- The fixed variable-name catalogue of phase 2 (lines 168-176). -/
def servicePatterns : List (String × String) :=
  [ ("ledgerService", "com.waqiti.ledger.service.LedgerService"),
    ("walletService", "com.waqiti.wallet.service.WalletService"),
    ("fraudDetectionService", "com.waqiti.fraud.service.FraudDetectionService"),
    ("paymentService", "com.waqiti.payment.service.PaymentService"),
    ("userService", "com.waqiti.user.service.UserService"),
    ("accountService", "com.waqiti.account.service.AccountService"),
    ("transactionService", "com.waqiti.transaction.service.TransactionService") ]

/-- The `UnresolvedMethodCall` finding (lines 195-205), including the
truncated five-method diagnostic sample in its `actual` text (line 201). -/
def mkUnresolvedMethodCall (path : String) (n : Nat) (serviceClass methodName : String)
    (known : List String) : BrokenReference :=
  { source_file := path
    line_number := n
    reference_type := "METHOD_CALL"
    target := serviceClass ++ "." ++ methodName
    expected := "Method " ++ methodName ++ " should exist in " ++ serviceClass
    actual := "Method not found. Available methods: " ++
      String.intercalate ", " (known.take 5) ++ "..."
    severity := "ERROR"
    impact := "Runtime error or compilation failure"
    recommended_fix := "Implement " ++ methodName ++ " in " ++ serviceClass ++
      " or fix method name" }

/-- Phase 2 treatment of one call-site match (lines 188-205): only when the
expected target class is registered is the method name checked against the
class's method set; an unknown target class is silently skipped. -/
def callMatchFindings (st : SymbolTable) (path : String) (serviceClass : String)
    (c : CallSite) : List BrokenReference :=
  if hasKey st.classRegistry serviceClass then
    if c.methodName ∈ mdictGet st.classMethods serviceClass then []
    else
      [mkUnresolvedMethodCall path c.lineNum serviceClass c.methodName
        (mdictGet st.classMethods serviceClass)]
  else []

/-- Phase 2 body for one file (lines 178-205): for each catalogue entry, all
matches of its variable pattern in the file, in order. -/
def validateMethodCallsFile (st : SymbolTable) (f : JavaFile) : List BrokenReference :=
  (servicePatterns.map (fun pat =>
    ((f.callSites.filter (fun c => c.varName == pat.1)).map
      (callMatchFindings st f.path pat.2)).flatten)).flatten

/-- Phase 2, `ReferenceValidator.validate_method_calls` (lines 163-210). -/
def validateMethodCalls (st : SymbolTable) (files : List JavaFile) : List BrokenReference :=
  (files.map (validateMethodCallsFile st)).flatten

/-- The `MissingBeanClass`-style finding of phase 3 (lines 244-254). -/
def mkMissingBeanClass (path : String) (n : Nat) (t : String) : BrokenReference :=
  { source_file := path
    line_number := n
    reference_type := "SPRING_BEAN"
    target := t
    expected := "Bean " ++ t ++ " should exist"
    actual := "Class not found"
    severity := "ERROR"
    impact := "Application startup will fail"
    recommended_fix := "Create class " ++ t ++ " or fix type" }

/-- The missing-annotation finding of phase 3 (lines 259-269). -/
def mkMissingBeanAnnot (path : String) (n : Nat) (t : String) : BrokenReference :=
  { source_file := path
    line_number := n
    reference_type := "SPRING_BEAN"
    target := t
    expected := "Bean " ++ t ++ " should be annotated with @Component/@Service/@Repository"
    actual := "Missing Spring annotation"
    severity := "ERROR"
    impact := "Bean not found exception at startup"
    recommended_fix := "Add @Service or @Component to " ++ t }

/-- The type-resolution step of phase 3 (lines 233-238): a type not starting
with the internal marker is looked up among the file's import statements,
taking the first import whose dotted name ends in a dot followed by the
bare type name; on no match the bare name is kept. -/
def resolveBeanType (imports : List String) (base : String) : String :=
  if strStartsWith base waqitiNs then base
  else
    match imports.find? (fun imp => strEndsWith imp ("." ++ base)) with
    | some fq => fq
    | none => base

/-- Phase 3 treatment of one injection site (lines 225-269). -/
def beanSiteFindings (st : SymbolTable) (f : JavaFile) (site : BeanSite) :
    List BrokenReference :=
  let baseType := resolveBeanType f.contentImports site.fieldBase
  if strContains baseType waqitiNs then
    if hasKey st.classRegistry baseType then
      if baseType ∉ st.componentClasses ∧ baseType ∉ st.serviceClasses ∧
          baseType ∉ st.repositoryClasses then
        [mkMissingBeanAnnot f.path site.lineNum baseType]
      else []
    else [mkMissingBeanClass f.path site.lineNum baseType]
  else []

/-- Phase 3, `ReferenceValidator.validate_spring_beans` (lines 212-274). -/
def validateSpringBeans (st : SymbolTable) (files : List JavaFile) : List BrokenReference :=
  (files.map (fun f => (f.beanSites.map (beanSiteFindings st f)).flatten)).flatten

/-- The `MissingFeignFallback` finding (lines 298-308). -/
def mkMissingFeignFallback (path : String) (fb : String) : BrokenReference :=
  { source_file := path
    line_number := 1
    reference_type := "FEIGN_FALLBACK"
    target := fb
    expected := "Fallback class " ++ fb ++ " should exist"
    actual := "Fallback class not found"
    severity := "ERROR"
    impact := "Circuit breaker will not work"
    recommended_fix := "Create fallback class " ++ fb }

/-- The `FeignFallbackNotComponent` finding (lines 310-320). -/
def mkFeignFallbackNotComponent (path : String) (fb : String) : BrokenReference :=
  { source_file := path
    line_number := 1
    reference_type := "FEIGN_FALLBACK"
    target := fb
    expected := "Fallback class " ++ fb ++ " should be @Component"
    actual := "Missing @Component annotation"
    severity := "ERROR"
    impact := "Fallback will not be registered"
    recommended_fix := "Add @Component to " ++ fb }

/-- Phase 4 treatment of one registered Feign client (lines 281-320): a
declared fallback simple name is resolved by taking the first registry key
that ends in a dot followed by it; no fallback declaration yields nothing. -/
def feignClientFindings (st : SymbolTable) (info : FeignInfo) : List BrokenReference :=
  match info.fallbackDecl with
  | none => []
  | some fb =>
      match st.classRegistry.find? (fun p => strEndsWith p.1 ("." ++ fb)) with
      | none => [mkMissingFeignFallback info.file fb]
      | some entry =>
          if entry.1 ∈ st.componentClasses then []
          else [mkFeignFallbackNotComponent info.file fb]

/-- Phase 4, `ReferenceValidator.validate_feign_clients` (lines 276-322):
iterate the Feign-client map in registration order. -/
def validateFeignClients (st : SymbolTable) : List BrokenReference :=
  (st.feignClients.map (fun p => feignClientFindings st p.2)).flatten

/-- The dependency-graph contribution of one file
(`detect_circular_dependencies`, lines 331-347): when the package and the
primary type matched, each content import containing the internal marker and
registered in the class registry is added to the current class's edge set. -/
def buildDepsFile (st : SymbolTable) (deps : List (String × List String)) (f : JavaFile) :
    List (String × List String) :=
  match f.packageName, f.classDecl with
  | some pkg, some pc =>
      let cur := pkg ++ "." ++ pc.2
      f.contentImports.foldl
        (fun d imported =>
          if strContains imported waqitiNs ∧ hasKey st.classRegistry imported then
            mdictAdd cur imported d
          else d)
        deps
  | _, _ => deps

/-- The dependency graph of `detect_circular_dependencies` (lines 328-350). -/
def buildDependencies (st : SymbolTable) (files : List JavaFile) :
    List (String × List String) :=
  files.foldl (buildDepsFile st) []

/-- The pair list one adjacency entry contributes to the cycle scan: every
dependency `b` of the entry's class `a` for which `a` is also in `b`'s
dependency set yields the ordered pair `(a, b)` (lines 353-356). -/
def entryPairs (deps : List (String × List String)) (e : String × List String) :
    List (String × String) :=
  (e.2.filter (fun b => e.1 ∈ mdictGet deps b)).map (fun b => (e.1, b))

/-- The double loop of lines 353-356: for every class and every one of its
dependencies, report the ordered pair whenever the reverse edge exists. -/
def findTwoCycles (deps : List (String × List String)) : List (String × String) :=
  (deps.map (entryPairs deps)).flatten

/-- `ReferenceValidator.detect_circular_dependencies` (lines 324-358). -/
def detectCircularDependencies (st : SymbolTable) (files : List JavaFile) :
    List (String × String) :=
  findTwoCycles (buildDependencies st files)

/-- The `ValidationReport` dataclass (lines 27-34); the unused
`deprecated_usage` list is never written nor read by the tool and is not
modelled. -/
structure ValidationReport where
  broken_imports : List BrokenReference := []
  broken_method_calls : List BrokenReference := []
  missing_beans : List BrokenReference := []
  broken_feign_clients : List BrokenReference := []
  circular_dependencies : List (String × String) := []
deriving DecidableEq, Repr

/-- The concatenation `all_issues` of `generate_report` (lines 368-371). -/
def allIssues (r : ValidationReport) : List BrokenReference :=
  r.broken_imports ++ r.broken_method_calls ++ r.missing_beans ++ r.broken_feign_clients

/-- The criticality test of line 375: the lower-cased impact text contains
the word startup or the word compilation. -/
def isCriticalImpact (impact : String) : Bool :=
  let low := impact.data.map Char.toLower
  decide ("startup".data <:+: low) || decide ("compilation".data <:+: low)

/-- One step of the severity grouping loop (lines 373-380), appending the
issue to the critical, error or warning tier. -/
def classifyStep (acc : List BrokenReference × List BrokenReference × List BrokenReference)
    (issue : BrokenReference) :
    List BrokenReference × List BrokenReference × List BrokenReference :=
  if issue.severity == "ERROR" then
    if isCriticalImpact issue.impact then (acc.1 ++ [issue], acc.2.1, acc.2.2)
    else (acc.1, acc.2.1 ++ [issue], acc.2.2)
  else (acc.1, acc.2.1, acc.2.2 ++ [issue])

/-- The severity grouping of `generate_report` (lines 363-380). -/
def classifyIssues (issues : List BrokenReference) :
    List BrokenReference × List BrokenReference × List BrokenReference :=
  issues.foldl classifyStep ([], [], [])

/-- The service-name extraction regex of line 385
(the first occurrence of the services marker followed by a nonempty segment
terminated by a further slash).  The candidate pieces are the remainders
after each occurrence of the marker; a candidate qualifies when its leading
slash-free segment is nonempty and is indeed followed by a slash — either
within the piece or because another marker occurrence follows. -/
def serviceSegAux : List (List Char) → Option String
  | [] => none
  | c :: rest =>
      let seg := c.takeWhile (fun ch => ch ≠ '/')
      if seg ≠ [] ∧ (seg.length < c.length ∨ rest ≠ []) then some (String.mk seg)
      else serviceSegAux rest

/-- Python `re.search` of the pattern matching a path segment between the
literal services marker and the next slash. -/
def extractService (path : String) : Option String :=
  match path.splitOn "/services/" with
  | [] => none
  | _ :: rest => serviceSegAux (rest.map String.data)

/-- Python `defaultdict(int)` increment `d[k] += 1`. -/
def countBump (k : String) : List (String × Nat) → List (String × Nat)
  | [] => [(k, 1)]
  | (k', n) :: rest => if k' = k then (k', n + 1) :: rest else (k', n) :: countBump k rest

/-- The per-service issue counting of lines 383-387. -/
def serviceIssueCounts (issues : List BrokenReference) : List (String × Nat) :=
  issues.foldl
    (fun acc issue =>
      match extractService issue.source_file with
      | some s => countBump s acc
      | none => acc)
    []

/-- One emitted issue dictionary of the report detail arrays
(lines 406-415): the dataclass fields minus the severity. -/
structure IssueOut where
  source : String
  line : Nat
  type : String
  target : String
  expected : String
  actual : String
  impact : String
  fix : String
deriving DecidableEq, Repr

/-- The dictionary built for one issue in the detail arrays. -/
def toIssueOut (i : BrokenReference) : IssueOut :=
  { source := i.source_file
    line := i.line_number
    type := i.reference_type
    target := i.target
    expected := i.expected
    actual := i.actual
    impact := i.impact
    fix := i.recommended_fix }

/-- The `summary` object of the report (lines 390-398). -/
structure ReportSummary where
  total_issues : Nat
  critical : Nat
  errors : Nat
  warnings : Nat
  circular_dependencies : Nat
  services_affected : Nat
  classes_scanned : Nat
deriving DecidableEq, Repr

/-- The `by_category` object of the report (lines 399-404). -/
structure ByCategory where
  broken_imports : Nat
  broken_method_calls : Nat
  missing_beans : Nat
  broken_feign_clients : Nat
deriving DecidableEq, Repr

/-- The emitted JSON report (lines 389-449). -/
structure Report where
  summary : ReportSummary
  by_category : ByCategory
  critical_issues : List IssueOut
  errors : List IssueOut
  warnings : List IssueOut
  circular_dependencies : List (String × String)
  services_affected : List (String × Nat)
deriving DecidableEq, Repr

/-- Python `sorted(items, key=count, reverse=True)`: a stable descending
sort by the count component. -/
def sortByCountDesc (l : List (String × Nat)) : List (String × Nat) :=
  l.mergeSort (fun a b => b.2 ≤ a.2)

/-- `ReferenceValidator.generate_report` (lines 360-449): the summary is
computed from the full tier lists, while the detail arrays are the tier
lists truncated to 50 / 100 / 100 entries, the cycle list truncated to 50
pairs, and the service ranking truncated to its top 20. -/
def generateReport (r : ValidationReport) (classesScanned : Nat) : Report :=
  let issues := allIssues r
  let tiers := classifyIssues issues
  let serviceIssues := serviceIssueCounts issues
  { summary :=
      { total_issues := issues.length
        critical := tiers.1.length
        errors := tiers.2.1.length
        warnings := tiers.2.2.length
        circular_dependencies := r.circular_dependencies.length
        services_affected := serviceIssues.length
        classes_scanned := classesScanned }
    by_category :=
      { broken_imports := r.broken_imports.length
        broken_method_calls := r.broken_method_calls.length
        missing_beans := r.missing_beans.length
        broken_feign_clients := r.broken_feign_clients.length }
    critical_issues := (tiers.1.take 50).map toIssueOut
    errors := (tiers.2.1.take 100).map toIssueOut
    warnings := (tiers.2.2.take 100).map toIssueOut
    circular_dependencies := r.circular_dependencies.take 50
    services_affected := (sortByCountDesc serviceIssues).take 20 }

/-- `ReferenceValidator.run_validation` (lines 451-482): phase 0 builds the
symbol table, the resolver phases fill the report lists, and the report is
generated from them with `classes_scanned` the registry size. -/
def runValidation (files : List JavaFile) : Report :=
  let st := scanAllClasses files
  let rep : ValidationReport :=
    { broken_imports := validateImports st files
      broken_method_calls := validateMethodCalls st files
      missing_beans := validateSpringBeans st files
      broken_feign_clients := validateFeignClients st
      circular_dependencies := detectCircularDependencies st files }
  generateReport rep st.classRegistry.length

/-- One `.java` file as seen by `DeepValidator.build_class_registry`
(deep_validation.py lines 27-54): its path, its package declaration match,
and all matches of the type-declaration pattern in order (the nested
static-class secondary entries of lines 56-61 extend the registry further
but are irrelevant to the path filter, which runs before any extraction). -/
structure DeepFile where
  path : String
  packageName : Option String := none
  decls : List (Bool × String) := []
deriving DecidableEq, Repr

/-- The path filter of `DeepValidator.build_class_registry` (line 28): skip
paths containing a test-directory marker. -/
def hasTestMarker (path : String) : Bool :=
  strContains path "/test/" || strContains path "/tests/"

/-- Registration of one file into `class_files`
(deep_validation.py lines 27-54). -/
def deepRegisterFile (acc : List (String × String)) (f : DeepFile) :
    List (String × String) :=
  if hasTestMarker f.path then acc
  else
    match f.packageName with
    | none => acc
    | some pkg => f.decls.foldl (fun d pc => dictInsert (pkg ++ "." ++ pc.2) f.path d) acc

/-- The `class_files` map built by `DeepValidator.build_class_registry`
(deep_validation.py lines 23-79). -/
def deepClassFiles (files : List DeepFile) : List (String × String) :=
  files.foldl deepRegisterFile []

/-! ### Severity classification -/

/-- The critical-tier predicate of the grouping loop. -/
def critPred (i : BrokenReference) : Bool :=
  i.severity == "ERROR" && isCriticalImpact i.impact

/-- The error-tier predicate of the grouping loop. -/
def errPred (i : BrokenReference) : Bool :=
  i.severity == "ERROR" && !(isCriticalImpact i.impact)

/-- The warning-tier predicate of the grouping loop. -/
def warnPred (i : BrokenReference) : Bool :=
  !(i.severity == "ERROR")

theorem classify_foldl_eq (issues : List BrokenReference)
    (c e w : List BrokenReference) :
    issues.foldl classifyStep (c, e, w) =
      (c ++ issues.filter critPred, e ++ issues.filter errPred, w ++ issues.filter warnPred) := by
  induction issues generalizing c e w with
  | nil => simp
  | cons i rest ih =>
      by_cases hs : i.severity == "ERROR" <;> by_cases hc : isCriticalImpact i.impact <;>
        simp [classifyStep, critPred, errPred, warnPred, hs, hc, ih, List.filter_cons]

theorem classifyIssues_eq (issues : List BrokenReference) :
    classifyIssues issues =
      (issues.filter critPred, issues.filter errPred, issues.filter warnPred) := by
  simpa using classify_foldl_eq issues [] [] []

theorem tier_filters_length (l : List BrokenReference) :
    (l.filter critPred).length + (l.filter errPred).length + (l.filter warnPred).length =
      l.length := by
  induction l with
  | nil => simp
  | cons i rest ih =>
      by_cases hs : i.severity == "ERROR" <;> by_cases hc : isCriticalImpact i.impact <;>
        simp [List.filter_cons, critPred, errPred, warnPred, hs, hc] <;> omega

/-- C7: the report aggregator classifies every finding so that it lands in
the critical tier exactly when its severity is the error severity and its
impact text mentions startup or compilation, lands in the errors tier
exactly when its severity is the error severity without such an impact, and
lands in the warnings tier exactly when its severity is not the error
severity (in particular every warning-severity finding lands there). -/
theorem severity_classification (issues : List BrokenReference) :
    classifyIssues issues =
      (issues.filter (fun i => i.severity == "ERROR" && isCriticalImpact i.impact),
       issues.filter (fun i => i.severity == "ERROR" && !(isCriticalImpact i.impact)),
       issues.filter (fun i => !(i.severity == "ERROR"))) :=
  classifyIssues_eq issues

/-- C8: the emitted summary counts are computed from the untruncated finding
lists — `total_issues` is the exact number of findings produced by the four
resolver phases and the three severity counts add up to it — while the
detail arrays are capped at 50 critical entries, 100 errors, 100 warnings,
50 cycle pairs and 20 ranked services. -/
theorem truncation_preserves_summary (files : List JavaFile) :
    (runValidation files).summary.total_issues =
      (validateImports (scanAllClasses files) files).length +
        (validateMethodCalls (scanAllClasses files) files).length +
        (validateSpringBeans (scanAllClasses files) files).length +
        (validateFeignClients (scanAllClasses files)).length ∧
    (runValidation files).summary.critical + (runValidation files).summary.errors +
        (runValidation files).summary.warnings =
      (runValidation files).summary.total_issues ∧
    (runValidation files).critical_issues.length ≤ 50 ∧
    (runValidation files).errors.length ≤ 100 ∧
    (runValidation files).warnings.length ≤ 100 ∧
    (runValidation files).circular_dependencies.length ≤ 50 ∧
    (runValidation files).services_affected.length ≤ 20 := by
  refine ⟨?_, ?_, ?_, ?_, ?_, ?_, ?_⟩
  · simp [runValidation, generateReport, allIssues]
    omega
  · simp [runValidation, generateReport, classifyIssues_eq]
    exact tier_filters_length _
  · simp only [runValidation, generateReport, List.length_map]
    exact le_trans (List.length_take_le 50 _) (le_refl 50)
  · simp only [runValidation, generateReport, List.length_map]
    exact le_trans (List.length_take_le 100 _) (le_refl 100)
  · simp only [runValidation, generateReport, List.length_map]
    exact le_trans (List.length_take_le 100 _) (le_refl 100)
  · simp only [runValidation, generateReport]
    exact List.length_take_le 50 _
  · simp only [runValidation, generateReport]
    exact List.length_take_le 20 _

/-- C9: the validation pipeline is a pure function of the enumerated corpus,
so two runs over the same unchanged corpus produce identical summary
counts. -/
theorem run_validation_deterministic (files1 files2 : List JavaFile)
    (h : files1 = files2) :
    (runValidation files1).summary = (runValidation files2).summary := by
  rw [h]

/-- A two-file demonstration corpus whose classes import each other. -/
def cxFileA : JavaFile :=
  { path := "/repo/services/x-service/src/main/java/A.java"
    packageName := some "com.waqiti.x"
    classDecl := some (true, "A")
    srcLines := [SrcLine.imp "com.waqiti.x.B" false]
    contentImports := ["com.waqiti.x.B"] }

/-- Second file of the demonstration corpus. -/
def cxFileB : JavaFile :=
  { path := "/repo/services/x-service/src/main/java/B.java"
    packageName := some "com.waqiti.x"
    classDecl := some (true, "B")
    srcLines := [SrcLine.imp "com.waqiti.x.A" false]
    contentImports := ["com.waqiti.x.A"] }

theorem run_validation_deterministic_witness :
    (runValidation [cxFileA, cxFileB]).summary =
      (runValidation [cxFileA, cxFileB]).summary :=
  run_validation_deterministic [cxFileA, cxFileB] [cxFileA, cxFileB] rfl

/-! ### Import resolution -/

theorem importLineFindings_line (st : SymbolTable) (path : String) (n : Nat) (l : SrcLine)
    (f : BrokenReference) (hf : f ∈ importLineFindings st path n l) : f.line_number = n := by
  cases l with
  | other => simp [importLineFindings] at hf
  | imp cls w =>
      simp only [importLineFindings] at hf
      split_ifs at hf <;> simp_all [mkMissingImport, mkNonPublicImport]

theorem validateImportsAux_append (st : SymbolTable) (path : String)
    (xs ys : List SrcLine) (n : Nat) :
    validateImportsAux st path n (xs ++ ys) =
      validateImportsAux st path n xs ++ validateImportsAux st path (n + xs.length) ys := by
  induction xs generalizing n with
  | nil => simp [validateImportsAux]
  | cons x xs ih =>
      have h : n + (xs.length + 1) = n + 1 + xs.length := by omega
      simp only [List.cons_append, validateImportsAux, List.length_cons, h, ih,
        List.append_eq, List.append_assoc]

theorem validateImportsAux_line_bounds (st : SymbolTable) (path : String)
    (xs : List SrcLine) (n : Nat) (f : BrokenReference)
    (hf : f ∈ validateImportsAux st path n xs) :
    n ≤ f.line_number ∧ f.line_number < n + xs.length := by
  induction xs generalizing n with
  | nil => simp [validateImportsAux] at hf
  | cons x xs ih =>
      simp only [validateImportsAux, List.mem_append] at hf
      rcases hf with hf | hf
      · have h := importLineFindings_line st path n x f hf
        simp only [List.length_cons]
        omega
      · have h := ih (n + 1) hf
        simp only [List.length_cons]
        omega

theorem validateImportsAux_filter_out (st : SymbolTable) (path : String)
    (xs : List SrcLine) (n m : Nat) (h : m < n ∨ n + xs.length ≤ m) :
    (validateImportsAux st path n xs).filter (fun f => f.line_number == m) = [] := by
  rw [List.filter_eq_nil_iff]
  intro f hf
  have hb := validateImportsAux_line_bounds st path xs n f hf
  simp only [beq_iff_eq]
  omega

theorem validateImportsLines_filter_at (st : SymbolTable) (path : String)
    (pre post : List SrcLine) (l : SrcLine) :
    (validateImportsLines st path (pre ++ l :: post)).filter
        (fun f => f.line_number == pre.length + 1) =
      importLineFindings st path (pre.length + 1) l := by
  unfold validateImportsLines
  rw [show (l :: post) = [l] ++ post from rfl, validateImportsAux_append,
    validateImportsAux_append]
  simp only [List.filter_append]
  rw [validateImportsAux_filter_out st path pre 1 (pre.length + 1) (by omega),
    validateImportsAux_filter_out st path post (1 + pre.length + List.length [l])
      (pre.length + 1) (by simp)]
  have hall : ∀ f ∈ validateImportsAux st path (1 + pre.length) [l],
      (fun f => f.line_number == pre.length + 1) f = true := by
    intro f hf
    have hb := validateImportsAux_line_bounds st path [l] (1 + pre.length) f hf
    simp only [List.length_singleton] at hb
    simp only [beq_iff_eq]
    omega
  rw [List.filter_eq_self.mpr hall]
  have h1 : 1 + pre.length = pre.length + 1 := by omega
  simp [validateImportsAux, h1]

/-- C3: for an import line whose dotted name contains the internal marker
and which is not a wildcard import, the findings the import resolver
attaches to that line are: none when the class is registered and public;
exactly one error-severity missing-import finding carrying the 1-based line
of the import statement when the class is absent from the registry; and
exactly one warning-severity non-public-import finding when the class is
registered but not public. -/
theorem import_resolution (st : SymbolTable) (path : String) (pre post : List SrcLine)
    (cls : String) (hw : strContains cls waqitiNs = true) :
    (hasKey st.classRegistry cls = true → cls ∈ st.publicClasses →
      (validateImportsLines st path (pre ++ SrcLine.imp cls false :: post)).filter
          (fun f => f.line_number == pre.length + 1) = []) ∧
    (hasKey st.classRegistry cls = false →
      (validateImportsLines st path (pre ++ SrcLine.imp cls false :: post)).filter
          (fun f => f.line_number == pre.length + 1) =
        [mkMissingImport path (pre.length + 1) cls] ∧
      (mkMissingImport path (pre.length + 1) cls).severity = "ERROR" ∧
      (mkMissingImport path (pre.length + 1) cls).line_number = pre.length + 1) ∧
    (hasKey st.classRegistry cls = true → cls ∉ st.publicClasses →
      (validateImportsLines st path (pre ++ SrcLine.imp cls false :: post)).filter
          (fun f => f.line_number == pre.length + 1) =
        [mkNonPublicImport path (pre.length + 1) cls] ∧
      (mkNonPublicImport path (pre.length + 1) cls).severity = "WARNING") := by
  rw [validateImportsLines_filter_at st path pre post (SrcLine.imp cls false)]
  refine ⟨?_, ?_, ?_⟩
  · intro hk hp
    simp [importLineFindings, hw, hk, hp]
  · intro hk
    refine ⟨?_, rfl, rfl⟩
    simp [importLineFindings, hw, hk]
  · intro hk hp
    refine ⟨?_, rfl⟩
    simp [importLineFindings, hw, hk, hp]

/-- Third demonstration file: a registered class that is not public. -/
def cxFileC : JavaFile :=
  { path := "/repo/services/x-service/src/main/java/C.java"
    packageName := some "com.waqiti.x"
    classDecl := some (false, "C") }

/-- The symbol table of the three-file demonstration corpus. -/
def stDemo : SymbolTable := scanAllClasses [cxFileA, cxFileB, cxFileC]

theorem import_resolution_witness :
    ((validateImportsLines stDemo "F.java" [SrcLine.imp "com.waqiti.x.B" false]).filter
        (fun f => f.line_number == 1) = []) ∧
    ((validateImportsLines stDemo "F.java" [SrcLine.imp "com.waqiti.x.Missing" false]).filter
        (fun f => f.line_number == 1) = [mkMissingImport "F.java" 1 "com.waqiti.x.Missing"]) ∧
    ((validateImportsLines stDemo "F.java" [SrcLine.imp "com.waqiti.x.C" false]).filter
        (fun f => f.line_number == 1) = [mkNonPublicImport "F.java" 1 "com.waqiti.x.C"]) :=
  ⟨(import_resolution stDemo "F.java" [] [] "com.waqiti.x.B" (by decide)).1
      (by decide) (by decide),
   ((import_resolution stDemo "F.java" [] [] "com.waqiti.x.Missing" (by decide)).2.1
      (by decide)).1,
   ((import_resolution stDemo "F.java" [] [] "com.waqiti.x.C" (by decide)).2.2
      (by decide) (by decide)).1⟩

/-! ### Dependency-injection auditing -/

/-- C4: for a field-injection site whose declared type resolves to a name
containing the internal marker, the auditor produces the missing-bean-class
finding exactly when the resolved type is absent from the registry, and —
when the type is registered — produces the error-severity
missing-annotation finding if and only if the resolved class carries none
of the component, service and repository role flags. -/
theorem bean_annotation_gating (st : SymbolTable) (f : JavaFile) (site : BeanSite)
    (hw : strContains (resolveBeanType f.contentImports site.fieldBase) waqitiNs = true) :
    (hasKey st.classRegistry (resolveBeanType f.contentImports site.fieldBase) = false →
      beanSiteFindings st f site =
        [mkMissingBeanClass f.path site.lineNum
          (resolveBeanType f.contentImports site.fieldBase)]) ∧
    (hasKey st.classRegistry (resolveBeanType f.contentImports site.fieldBase) = true →
      (beanSiteFindings st f site =
          [mkMissingBeanAnnot f.path site.lineNum
            (resolveBeanType f.contentImports site.fieldBase)] ↔
        (resolveBeanType f.contentImports site.fieldBase ∉ st.componentClasses ∧
         resolveBeanType f.contentImports site.fieldBase ∉ st.serviceClasses ∧
         resolveBeanType f.contentImports site.fieldBase ∉ st.repositoryClasses))) ∧
    (mkMissingBeanAnnot f.path site.lineNum
      (resolveBeanType f.contentImports site.fieldBase)).severity = "ERROR" := by
  refine ⟨?_, ?_, rfl⟩
  · intro hk
    simp [beanSiteFindings, hw, hk]
  · intro hk
    constructor
    · intro heq
      by_contra hroles
      simp [beanSiteFindings, hw, hk, hroles] at heq
    · intro hroles
      simp [beanSiteFindings, hw, hk, hroles]

/-- A file with one injection site whose type resolves through the import
list, injecting the non-annotated registered class of the demonstration
corpus. -/
def beanDemoFile : JavaFile :=
  { path := "/repo/services/x-service/src/main/java/U.java"
    contentImports := ["com.waqiti.x.C", "com.waqiti.x.B"]
    beanSites := [{ fieldBase := "C", lineNum := 7 }] }

theorem bean_annotation_gating_witness :
    (beanSiteFindings stDemo beanDemoFile { fieldBase := "C", lineNum := 7 } =
        [mkMissingBeanAnnot "/repo/services/x-service/src/main/java/U.java" 7
          "com.waqiti.x.C"] ↔
      ("com.waqiti.x.C" ∉ stDemo.componentClasses ∧
       "com.waqiti.x.C" ∉ stDemo.serviceClasses ∧
       "com.waqiti.x.C" ∉ stDemo.repositoryClasses)) ∧
    (beanSiteFindings stDemo beanDemoFile { fieldBase := "com.waqiti.Absent", lineNum := 9 } =
      [mkMissingBeanClass "/repo/services/x-service/src/main/java/U.java" 9
        "com.waqiti.Absent"]) := by
  constructor
  · exact (bean_annotation_gating stDemo beanDemoFile { fieldBase := "C", lineNum := 7 }
      (by decide)).2.1 (by decide)
  · exact (bean_annotation_gating stDemo beanDemoFile { fieldBase := "com.waqiti.Absent", lineNum := 9 }
      (by decide)).1 (by decide)

/-! ### Feign client auditing -/

/-- C5: for a registered Feign client, no finding is produced when no
fallback attribute was declared; when a fallback simple name was declared,
exactly one error-severity missing-fallback finding is produced when no
registered fully qualified name ends in a dot followed by that simple name,
exactly one error-severity not-component finding is produced when the first
such match lacks the component role, and nothing is produced when the match
carries the component role. -/
theorem feign_fallback_auditing (st : SymbolTable) (info : FeignInfo) :
    (info.fallbackDecl = none → feignClientFindings st info = []) ∧
    (∀ fb, info.fallbackDecl = some fb →
      (st.classRegistry.find? (fun p => strEndsWith p.1 ("." ++ fb)) = none →
        feignClientFindings st info = [mkMissingFeignFallback info.file fb] ∧
        (mkMissingFeignFallback info.file fb).severity = "ERROR") ∧
      (∀ entry, st.classRegistry.find? (fun p => strEndsWith p.1 ("." ++ fb)) = some entry →
        (entry.1 ∈ st.componentClasses → feignClientFindings st info = []) ∧
        (entry.1 ∉ st.componentClasses →
          feignClientFindings st info = [mkFeignFallbackNotComponent info.file fb] ∧
          (mkFeignFallbackNotComponent info.file fb).severity = "ERROR"))) := by
  refine ⟨?_, ?_⟩
  · intro h
    simp [feignClientFindings, h]
  · intro fb hfb
    refine ⟨?_, ?_⟩
    · intro hfind
      exact ⟨by simp [feignClientFindings, hfb, hfind], rfl⟩
    · intro entry hfind
      refine ⟨?_, ?_⟩
      · intro hc
        simp [feignClientFindings, hfb, hfind, hc]
      · intro hc
        exact ⟨by simp [feignClientFindings, hfb, hfind, hc], rfl⟩

/-- A Feign-client record declaring a fallback whose simple name matches no
registered class. -/
def feignDemoNoMatch : FeignInfo :=
  { file := "/repo/services/x-service/src/main/java/RemoteClient.java"
    serviceName := "remote-service"
    fallbackDecl := some "RemoteClientFallback" }

/-- A Feign-client record declaring a fallback resolving to the registered
class C, which carries no component role. -/
def feignDemoNotComponent : FeignInfo :=
  { file := "/repo/services/x-service/src/main/java/RemoteClient.java"
    serviceName := "remote-service"
    fallbackDecl := some "C" }

/-- A Feign-client record declaring no fallback attribute. -/
def feignDemoNoFallback : FeignInfo :=
  { file := "/repo/services/x-service/src/main/java/RemoteClient.java"
    serviceName := "remote-service"
    fallbackDecl := none }

theorem feign_fallback_auditing_witness :
    feignClientFindings stDemo feignDemoNoFallback = [] ∧
    feignClientFindings stDemo feignDemoNoMatch =
      [mkMissingFeignFallback "/repo/services/x-service/src/main/java/RemoteClient.java"
        "RemoteClientFallback"] ∧
    feignClientFindings stDemo feignDemoNotComponent =
      [mkFeignFallbackNotComponent "/repo/services/x-service/src/main/java/RemoteClient.java"
        "C"] := by
  refine ⟨?_, ?_, ?_⟩
  · exact (feign_fallback_auditing stDemo feignDemoNoFallback).1 rfl
  · exact (((feign_fallback_auditing stDemo feignDemoNoMatch).2 "RemoteClientFallback"
      rfl).1 (by decide)).1
  · exact ((((feign_fallback_auditing stDemo feignDemoNotComponent).2 "C" rfl).2
      ("com.waqiti.x.C", "/repo/services/x-service/src/main/java/C.java")
      (by decide)).2 (by decide)).1

/-! ### Call-site resolution -/

/-- C6: for a call-site match of an entry of the fixed variable-name
catalogue, the resolver is silent when the expected target class is absent
from the registry; when the target class is registered, it produces exactly
one error-severity unresolved-method finding — naming the expected class in
its target and a five-entry truncated sample of the known methods in its
diagnostic text — when the invoked method name is not in the class's method
set, and nothing when it is. -/
theorem call_site_resolution (st : SymbolTable) (path : String) (v cls : String)
    (c : CallSite) (_hcat : (v, cls) ∈ servicePatterns) :
    (hasKey st.classRegistry cls = false → callMatchFindings st path cls c = []) ∧
    (hasKey st.classRegistry cls = true →
      (c.methodName ∈ mdictGet st.classMethods cls → callMatchFindings st path cls c = []) ∧
      (c.methodName ∉ mdictGet st.classMethods cls →
        callMatchFindings st path cls c =
          [mkUnresolvedMethodCall path c.lineNum cls c.methodName
            (mdictGet st.classMethods cls)] ∧
        (mkUnresolvedMethodCall path c.lineNum cls c.methodName
          (mdictGet st.classMethods cls)).severity = "ERROR" ∧
        (mkUnresolvedMethodCall path c.lineNum cls c.methodName
          (mdictGet st.classMethods cls)).target = cls ++ "." ++ c.methodName)) := by
  refine ⟨?_, ?_⟩
  · intro hk
    simp [callMatchFindings, hk]
  · intro hk
    refine ⟨?_, ?_⟩
    · intro hm
      simp [callMatchFindings, hk, hm]
    · intro hm
      exact ⟨by simp [callMatchFindings, hk, hm], rfl, rfl⟩

/-- A registered service class for the call-site demonstration: the ledger
service target of the first catalogue entry, declaring one method. -/
def ledgerDemoFile : JavaFile :=
  { path := "/repo/services/ledger-service/src/main/java/LedgerService.java"
    packageName := some "com.waqiti.ledger.service"
    classDecl := some (true, "LedgerService")
    hasService := true
    methodDecls := ["postTransaction"] }

/-- The symbol table of the call-site demonstration corpus. -/
def stLedger : SymbolTable := scanAllClasses [ledgerDemoFile]

theorem call_site_resolution_witness :
    (callMatchFindings stLedger "Caller.java" "com.waqiti.ledger.service.LedgerService"
        { varName := "ledgerService", methodName := "postTransaction", lineNum := 3 } = []) ∧
    (callMatchFindings stLedger "Caller.java" "com.waqiti.ledger.service.LedgerService"
        { varName := "ledgerService", methodName := "reconcile", lineNum := 4 } =
      [mkUnresolvedMethodCall "Caller.java" 4 "com.waqiti.ledger.service.LedgerService"
        "reconcile" ["postTransaction"]]) ∧
    (callMatchFindings stLedger "Caller.java" "com.waqiti.wallet.service.WalletService"
        { varName := "walletService", methodName := "debit", lineNum := 5 } = []) := by
  refine ⟨?_, ?_, ?_⟩
  · exact ((call_site_resolution stLedger "Caller.java" "ledgerService"
      "com.waqiti.ledger.service.LedgerService"
      { varName := "ledgerService", methodName := "postTransaction", lineNum := 3 }
      (by decide)).2 (by decide)).1 (by decide)
  · exact (((call_site_resolution stLedger "Caller.java" "ledgerService"
      "com.waqiti.ledger.service.LedgerService"
      { varName := "ledgerService", methodName := "reconcile", lineNum := 4 }
      (by decide)).2 (by decide)).2 (by decide)).1
  · exact (call_site_resolution stLedger "Caller.java" "walletService"
      "com.waqiti.wallet.service.WalletService"
      { varName := "walletService", methodName := "debit", lineNum := 5 }
      (by decide)).1 (by decide)

/-! ### Dictionary and set lemmas -/

theorem lookup_dictInsert {V : Type} (d : List (String × V)) (k k' : String) (v : V) :
    List.lookup k (dictInsert k' v d) =
      if k = k' then some v else List.lookup k d := by
  induction d with
  | nil =>
      by_cases h : k = k'
      · simp [dictInsert, List.lookup_cons, h]
      · simp [dictInsert, List.lookup_cons, h, beq_false_of_ne h]
  | cons e rest ih =>
      obtain ⟨a, ys⟩ := e
      by_cases h1 : a = k'
      · subst h1
        by_cases h2 : k = a
        · simp [dictInsert, List.lookup_cons, h2]
        · simp [dictInsert, List.lookup_cons, h2, beq_false_of_ne h2]
      · by_cases h2 : k = a
        · subst h2
          simp [dictInsert, List.lookup_cons, Ne.symm h1, h1]
        · simp [dictInsert, List.lookup_cons, h1, h2, beq_false_of_ne h2, ih]

theorem hasKey_dictInsert_self {V : Type} (d : List (String × V)) (k : String) (v : V) :
    hasKey (dictInsert k v d) k = true := by
  simp [hasKey, lookup_dictInsert]

theorem hasKey_dictInsert_of {V : Type} (d : List (String × V)) (k k' : String) (v : V)
    (h : hasKey d k = true) : hasKey (dictInsert k' v d) k = true := by
  by_cases hk : k = k' <;> simp_all [hasKey, lookup_dictInsert]

theorem mem_setInsert_self (x : String) (s : List String) : x ∈ setInsert x s := by
  by_cases h : x ∈ s <;> simp [setInsert, h]

theorem mem_setInsert_of (x y : String) (s : List String) (h : y ∈ s) :
    y ∈ setInsert x s := by
  by_cases hx : x ∈ s <;> simp [setInsert, hx, h]

theorem lookup_mdictAdd (d : List (String × List String)) (k k' x : String) :
    List.lookup k (mdictAdd k' x d) =
      if k = k' then some (setInsert x (mdictGet d k')) else List.lookup k d := by
  induction d with
  | nil =>
      by_cases h : k = k'
      · simp [mdictAdd, mdictGet, List.lookup_cons, h, setInsert]
      · simp [mdictAdd, mdictGet, List.lookup_cons, h, beq_false_of_ne h]
  | cons e rest ih =>
      obtain ⟨a, ys⟩ := e
      by_cases h1 : a = k'
      · subst h1
        by_cases h2 : k = a
        · simp [mdictAdd, mdictGet, List.lookup_cons, h2]
        · simp [mdictAdd, mdictGet, List.lookup_cons, h2, beq_false_of_ne h2]
      · by_cases h2 : k = a
        · subst h2
          simp [mdictAdd, mdictGet, List.lookup_cons, Ne.symm h1, h1,
            beq_false_of_ne (fun h => h1 h.symm)]
        · have hbeq : (k == a) = false := beq_false_of_ne h2
          by_cases h3 : k = k'
          · subst h3
            simp [mdictAdd, if_neg h1, List.lookup_cons, hbeq, ih, mdictGet]
          · simp [mdictAdd, if_neg h1, List.lookup_cons, hbeq, ih, h3]

theorem mem_mdictGet_mdictAdd_self (d : List (String × List String)) (k x : String) :
    x ∈ mdictGet (mdictAdd k x d) k := by
  simp [mdictGet, lookup_mdictAdd, mem_setInsert_self]

theorem mem_mdictGet_mdictAdd_of (d : List (String × List String)) (k k' x y : String)
    (h : y ∈ mdictGet d k) : y ∈ mdictGet (mdictAdd k' x d) k := by
  by_cases hk : k = k'
  · subst hk
    simpa [mdictGet, lookup_mdictAdd] using mem_setInsert_of x y _ h
  · simpa [mdictGet, lookup_mdictAdd, hk] using h

theorem lookup_mem {V : Type} (d : List (String × V)) (k : String) (v : V)
    (h : List.lookup k d = some v) : (k, v) ∈ d := by
  induction d with
  | nil => simp [List.lookup] at h
  | cons e rest ih =>
      obtain ⟨a, ys⟩ := e
      rw [List.lookup_cons] at h
      by_cases hk : k = a
      · subst hk
        simp only [beq_self_eq_true] at h
        cases h
        exact List.mem_cons_self _ _
      · have hbeq : (k == a) = false := beq_false_of_ne hk
        simp only [hbeq] at h
        exact List.mem_cons_of_mem _ (ih h)

/-! ### Registry membership through the scan -/

theorem hasKey_scanFile_of (st : SymbolTable) (f : JavaFile) (k : String)
    (h : hasKey st.classRegistry k = true) :
    hasKey (scanFile st f).classRegistry k = true := by
  cases hp : f.packageName with
  | none => simpa [scanFile, hp] using h
  | some pkg =>
      cases hc : f.classDecl with
      | none => simpa [scanFile, hp, hc] using h
      | some pc => simpa [scanFile, hp, hc] using hasKey_dictInsert_of _ k _ f.path h

theorem hasKey_scanFile_self (st : SymbolTable) (f : JavaFile) (pkg : String)
    (pc : Bool × String) (hp : f.packageName = some pkg) (hc : f.classDecl = some pc) :
    hasKey (scanFile st f).classRegistry (pkg ++ "." ++ pc.2) = true := by
  simpa [scanFile, hp, hc] using hasKey_dictInsert_self _ _ f.path

theorem hasKey_scanFold_of (files : List JavaFile) (st : SymbolTable) (k : String)
    (h : hasKey st.classRegistry k = true) :
    hasKey ((files.foldl scanFile st).classRegistry) k = true := by
  induction files generalizing st with
  | nil => simpa using h
  | cons g rest ih => exact ih (scanFile st g) (hasKey_scanFile_of st g k h)

theorem hasKey_scanFold (files : List JavaFile) (st : SymbolTable) (f : JavaFile)
    (pkg : String) (pc : Bool × String) (hf : f ∈ files) (hp : f.packageName = some pkg)
    (hc : f.classDecl = some pc) :
    hasKey ((files.foldl scanFile st).classRegistry) (pkg ++ "." ++ pc.2) = true := by
  induction files generalizing st with
  | nil => simp at hf
  | cons g rest ih =>
      rcases List.mem_cons.mp hf with hg | hg
      · subst hg
        exact hasKey_scanFold_of rest (scanFile st f) _
          (hasKey_scanFile_self st f pkg pc hp hc)
      · exact ih (scanFile st g) hg

theorem hasKey_scanAllClasses (files : List JavaFile) (f : JavaFile) (pkg : String)
    (pc : Bool × String) (hf : f ∈ files) (hp : f.packageName = some pkg)
    (hc : f.classDecl = some pc) :
    hasKey (scanAllClasses files).classRegistry (pkg ++ "." ++ pc.2) = true :=
  hasKey_scanFold files {} f pkg pc hf hp hc

/-! ### Dependency-graph membership -/

theorem mem_mdictGet_buildDepsFile_of (st : SymbolTable)
    (deps : List (String × List String)) (f : JavaFile) (k y : String)
    (h : y ∈ mdictGet deps k) : y ∈ mdictGet (buildDepsFile st deps f) k := by
  cases hp : f.packageName with
  | none => simpa [buildDepsFile, hp] using h
  | some pkg =>
      cases hc : f.classDecl with
      | none => simpa [buildDepsFile, hp, hc] using h
      | some pc =>
          simp only [buildDepsFile, hp, hc]
          induction f.contentImports generalizing deps with
          | nil => simpa using h
          | cons i rest ih =>
              simp only [List.foldl_cons]
              split
              · exact ih _ (mem_mdictGet_mdictAdd_of deps k _ i y h)
              · exact ih _ h

theorem mem_mdictGet_depsFold_of (st : SymbolTable) (files : List JavaFile)
    (deps : List (String × List String)) (k y : String) (h : y ∈ mdictGet deps k) :
    y ∈ mdictGet (files.foldl (buildDepsFile st) deps) k := by
  induction files generalizing deps with
  | nil => simpa using h
  | cons g rest ih => exact ih _ (mem_mdictGet_buildDepsFile_of st deps g k y h)

theorem mem_mdictGet_importFold_of (st : SymbolTable) (cur : String)
    (imports : List String) (deps : List (String × List String)) (k y : String)
    (h : y ∈ mdictGet deps k) :
    y ∈ mdictGet
      (imports.foldl
        (fun d imported =>
          if strContains imported waqitiNs ∧ hasKey st.classRegistry imported then
            mdictAdd cur imported d
          else d)
        deps) k := by
  induction imports generalizing deps with
  | nil => simpa using h
  | cons j rest ih =>
      simp only [List.foldl_cons]
      split
      · exact ih _ (mem_mdictGet_mdictAdd_of deps k cur j y h)
      · exact ih _ h

theorem mem_mdictGet_importFold (st : SymbolTable) (cur i : String)
    (imports : List String) (deps : List (String × List String)) (hi : i ∈ imports)
    (hcond : (strContains i waqitiNs ∧ hasKey st.classRegistry i = true)) :
    i ∈ mdictGet
      (imports.foldl
        (fun d imported =>
          if strContains imported waqitiNs ∧ hasKey st.classRegistry imported then
            mdictAdd cur imported d
          else d)
        deps) cur := by
  induction imports generalizing deps with
  | nil => simp at hi
  | cons j rest ih =>
      rcases List.mem_cons.mp hi with hj | hj
      · subst hj
        simp only [List.foldl_cons, if_pos hcond]
        exact mem_mdictGet_importFold_of st cur rest _ cur i
          (mem_mdictGet_mdictAdd_self deps cur i)
      · simp only [List.foldl_cons]
        exact ih _ hj

theorem mem_mdictGet_buildDepsFold (st : SymbolTable) (files : List JavaFile)
    (deps : List (String × List String)) (f : JavaFile) (pkg : String)
    (pc : Bool × String) (hf : f ∈ files) (hp : f.packageName = some pkg)
    (hc : f.classDecl = some pc) (i : String) (hi : i ∈ f.contentImports)
    (hcond : strContains i waqitiNs ∧ hasKey st.classRegistry i = true) :
    i ∈ mdictGet (files.foldl (buildDepsFile st) deps) (pkg ++ "." ++ pc.2) := by
  induction files generalizing deps with
  | nil => simp at hf
  | cons g rest ih =>
      rcases List.mem_cons.mp hf with hg | hg
      · subst hg
        simp only [List.foldl_cons]
        refine mem_mdictGet_depsFold_of st rest _ _ i ?_
        simp only [buildDepsFile, hp, hc]
        exact mem_mdictGet_importFold st _ i f.contentImports deps hi hcond
      · simp only [List.foldl_cons]
        exact ih _ hg

theorem mem_mdictGet_buildDependencies (st : SymbolTable) (files : List JavaFile)
    (f : JavaFile) (pkg : String) (pc : Bool × String) (hf : f ∈ files)
    (hp : f.packageName = some pkg) (hc : f.classDecl = some pc)
    (i : String) (hi : i ∈ f.contentImports)
    (hcond : strContains i waqitiNs ∧ hasKey st.classRegistry i = true) :
    i ∈ mdictGet (buildDependencies st files) (pkg ++ "." ++ pc.2) :=
  mem_mdictGet_buildDepsFold st files [] f pkg pc hf hp hc i hi hcond

theorem mem_findTwoCycles (deps : List (String × List String)) (a b : String)
    (hrev : a ∈ mdictGet deps b) (hb : b ∈ mdictGet deps a) :
    (a, b) ∈ findTwoCycles deps := by
  rcases hds : List.lookup a deps with _ | ds
  · rw [mdictGet, hds] at hb
    simp at hb
  · rw [mdictGet, hds] at hb
    simp only [Option.getD_some] at hb
    have hmem : (a, ds) ∈ deps := lookup_mem deps a ds hds
    unfold findTwoCycles
    rw [List.mem_flatten]
    refine ⟨entryPairs deps (a, ds), List.mem_map_of_mem _ hmem, ?_⟩
    unfold entryPairs
    refine List.mem_map.mpr ⟨b, List.mem_filter.mpr ⟨hb, ?_⟩, rfl⟩
    simpa using hrev

/-- C10: a file whose primary class is registered and whose content contains
an import statement naming the class's own fully qualified name contributes
the degenerate self-pair to the circular-dependency list. -/
theorem self_import_cycle (files : List JavaFile) (f : JavaFile) (pkg : String)
    (pc : Bool × String) (hf : f ∈ files) (hp : f.packageName = some pkg)
    (hc : f.classDecl = some pc)
    (hself : (pkg ++ "." ++ pc.2) ∈ f.contentImports)
    (hw : strContains (pkg ++ "." ++ pc.2) waqitiNs = true) :
    (pkg ++ "." ++ pc.2, pkg ++ "." ++ pc.2) ∈
      detectCircularDependencies (scanAllClasses files) files := by
  have hreg := hasKey_scanAllClasses files f pkg pc hf hp hc
  have hdep := mem_mdictGet_buildDependencies (scanAllClasses files) files f pkg pc
    hf hp hc _ hself ⟨hw, hreg⟩
  exact mem_findTwoCycles _ _ _ hdep hdep

/-- A file importing its own fully qualified name. -/
def selfImportFile : JavaFile :=
  { path := "/repo/services/y-service/src/main/java/S.java"
    packageName := some "com.waqiti.y"
    classDecl := some (false, "S")
    contentImports := ["com.waqiti.y.S"] }

theorem self_import_cycle_witness :
    ("com.waqiti.y.S", "com.waqiti.y.S") ∈
      detectCircularDependencies (scanAllClasses [selfImportFile]) [selfImportFile] :=
  self_import_cycle [selfImportFile] selfImportFile "com.waqiti.y" (false, "S")
    (by simp) rfl rfl (by decide) (by decide)

/-! ### Counting cycle pairs -/

/-- The number of entries of a pair list equal to the unordered pair of two
classes (counting both orientations). -/
def countMatch (l : List (String × String)) (a b : String) : Nat :=
  l.countP (fun p => decide (p = (a, b)) || decide (p = (b, a)))

theorem countMatch_flatten_map (deps l : List (String × List String)) (a b : String) :
    countMatch ((l.map (entryPairs deps)).flatten) a b =
      (l.map (fun e => countMatch (entryPairs deps e) a b)).sum := by
  induction l with
  | nil => simp [countMatch]
  | cons e rest ih =>
      have happ :
          countMatch (entryPairs deps e ++ (rest.map (entryPairs deps)).flatten) a b =
            countMatch (entryPairs deps e) a b +
              countMatch ((rest.map (entryPairs deps)).flatten) a b := by
        simp [countMatch, List.countP_append]
      simp only [List.map_cons, List.flatten_cons, List.sum_cons, happ, ih]

theorem countP_decide_eq_of_nodup (l : List String) (x : String) (h : l.Nodup) :
    l.countP (fun y => decide (y = x)) = if x ∈ l then 1 else 0 := by
  induction l with
  | nil => simp
  | cons z zs ih =>
      rw [List.countP_cons]
      rcases List.nodup_cons.mp h with ⟨hz, hzs⟩
      by_cases hx : z = x
      · subst hx
        have h0 : zs.countP (fun y => decide (y = z)) = 0 :=
          List.countP_eq_zero.mpr (fun y hy => by
            simp only [decide_eq_true_eq]
            exact fun he => hz (he ▸ hy))
        simp [h0]
      · simp [ih hzs, hx, List.mem_cons, Ne.symm hx]

theorem countMatch_entryPairs (deps : List (String × List String))
    (k : String) (ds : List String) (a b : String) (hab : a ≠ b) (hnd : ds.Nodup)
    (hA : b ∈ mdictGet deps a) (hB : a ∈ mdictGet deps b) :
    countMatch (entryPairs deps (k, ds)) a b =
      (if k = a ∧ b ∈ ds then 1 else 0) + (if k = b ∧ a ∈ ds then 1 else 0) := by
  unfold countMatch entryPairs
  dsimp only
  rw [List.countP_map]
  by_cases hk1 : k = a
  · subst hk1
    have hcongr :
        (ds.filter (fun y => decide (k ∈ mdictGet deps y))).countP
            ((fun p => decide (p = (k, b)) || decide (p = (b, k))) ∘ fun y => (k, y)) =
          (ds.filter (fun y => decide (k ∈ mdictGet deps y))).countP
            (fun y => decide (y = b)) := by
      refine List.countP_congr fun y _ => ?_
      simp [Prod.ext_iff, hab]
    rw [hcongr, countP_decide_eq_of_nodup _ b (hnd.filter _)]
    have hmem : b ∈ ds.filter (fun y => decide (k ∈ mdictGet deps y)) ↔ b ∈ ds := by
      simp only [List.mem_filter, decide_eq_true_eq]
      exact ⟨fun hh => hh.1, fun hh => ⟨hh, hB⟩⟩
    rw [if_congr hmem rfl rfl]
    simp [hab]
  · by_cases hk2 : k = b
    · subst hk2
      have hcongr :
          (ds.filter (fun y => decide (k ∈ mdictGet deps y))).countP
              ((fun p => decide (p = (a, k)) || decide (p = (k, a))) ∘ fun y => (k, y)) =
            (ds.filter (fun y => decide (k ∈ mdictGet deps y))).countP
              (fun y => decide (y = a)) := by
        refine List.countP_congr fun y _ => ?_
        simp [Prod.ext_iff, fun h : k = a => hk1 h]
      rw [hcongr, countP_decide_eq_of_nodup _ a (hnd.filter _)]
      have hmem : a ∈ ds.filter (fun y => decide (k ∈ mdictGet deps y)) ↔ a ∈ ds := by
        simp only [List.mem_filter, decide_eq_true_eq]
        exact ⟨fun hh => hh.1, fun hh => ⟨hh, hA⟩⟩
      rw [if_congr hmem rfl rfl]
      simp [hk1]
    · have h0 :
          (ds.filter (fun y => decide (k ∈ mdictGet deps y))).countP
              ((fun p => decide (p = (a, b)) || decide (p = (b, a))) ∘ fun y => (k, y)) = 0 := by
        refine List.countP_eq_zero.mpr fun y _ => ?_
        simp [Prod.ext_iff, hk1, hk2]
      rw [h0]
      simp [hk1, hk2]

theorem sum_map_add_split {α : Type} (l : List α) (f g : α → Nat) :
    (l.map (fun e => f e + g e)).sum = (l.map f).sum + (l.map g).sum := by
  induction l with
  | nil => simp
  | cons x xs ih =>
      simp only [List.map_cons, List.sum_cons, ih]
      omega

theorem sum_single_key_zero (d : List (String × List String)) (c x : String)
    (hc : c ∉ d.map Prod.fst) :
    (d.map (fun e => if e.1 = c ∧ x ∈ e.2 then 1 else 0)).sum = 0 := by
  induction d with
  | nil => simp
  | cons e rest ih =>
      simp only [List.map_cons, List.mem_cons, not_or] at hc ⊢
      rw [List.sum_cons]
      have h1 : ¬(e.1 = c ∧ x ∈ e.2) := fun hh => hc.1 hh.1.symm
      simp [h1, ih hc.2]

theorem sum_single_key (d : List (String × List String)) (c x : String)
    (hnd : (d.map Prod.fst).Nodup) (ds : List String)
    (hl : List.lookup c d = some ds) (hx : x ∈ ds) :
    (d.map (fun e => if e.1 = c ∧ x ∈ e.2 then 1 else 0)).sum = 1 := by
  induction d with
  | nil => simp [List.lookup] at hl
  | cons e rest ih =>
      obtain ⟨k, ys⟩ := e
      simp only [List.map_cons, List.sum_cons]
      rw [List.lookup_cons] at hl
      simp only [List.map_cons] at hnd
      rcases List.nodup_cons.mp hnd with ⟨hk, hrest⟩
      by_cases hck : c = k
      · subst hck
        simp only [beq_self_eq_true] at hl
        cases hl
        have h1 : ((c : String) = c ∧ x ∈ ds) := ⟨rfl, hx⟩
        rw [if_pos h1, sum_single_key_zero rest c x hk]
      · have hbeq : (c == k) = false := beq_false_of_ne hck
        simp only [hbeq] at hl
        have h1 : ¬((k : String) = c ∧ x ∈ ys) := fun hh => hck (hh.1.symm)
        rw [if_neg h1, ih hrest hl]

/-! ### Dependency-graph shape invariants -/

theorem keys_mdictAdd (d : List (String × List String)) (k x : String) :
    (mdictAdd k x d).map Prod.fst =
      if k ∈ d.map Prod.fst then d.map Prod.fst else d.map Prod.fst ++ [k] := by
  induction d with
  | nil => simp [mdictAdd]
  | cons e rest ih =>
      obtain ⟨a, ys⟩ := e
      by_cases h : a = k
      · subst h
        simp [mdictAdd]
      · simp only [mdictAdd, if_neg h, List.map_cons, List.mem_cons, ih]
        by_cases hk : k ∈ rest.map Prod.fst
        · simp [hk, Ne.symm h]
        · simp [hk, Ne.symm h]

theorem keys_nodup_mdictAdd (d : List (String × List String)) (k x : String)
    (h : (d.map Prod.fst).Nodup) : ((mdictAdd k x d).map Prod.fst).Nodup := by
  rw [keys_mdictAdd]
  by_cases hk : k ∈ d.map Prod.fst
  · simpa [hk] using h
  · simp [hk, List.nodup_append, h]

theorem setInsert_nodup (x : String) (s : List String) (h : s.Nodup) :
    (setInsert x s).Nodup := by
  by_cases hx : x ∈ s
  · simpa [setInsert, hx] using h
  · simp [setInsert, hx, List.nodup_append, h]

theorem values_nodup_mdictAdd (d : List (String × List String)) (k x : String)
    (h : ∀ e ∈ d, e.2.Nodup) : ∀ e ∈ mdictAdd k x d, e.2.Nodup := by
  induction d with
  | nil =>
      intro e he
      simp only [mdictAdd, List.mem_singleton] at he
      subst he
      simp
  | cons e0 rest ih =>
      intro e he
      obtain ⟨a, ys⟩ := e0
      by_cases ha : a = k
      · rw [show mdictAdd k x ((a, ys) :: rest) = (a, setInsert x ys) :: rest by
          simp [mdictAdd, ha]] at he
        rcases List.mem_cons.mp he with he1 | he1
        · rw [he1]
          exact setInsert_nodup x ys (h (a, ys) (List.mem_cons_self _ _))
        · exact h e (List.mem_cons_of_mem _ he1)
      · rw [show mdictAdd k x ((a, ys) :: rest) = (a, ys) :: mdictAdd k x rest by
          simp [mdictAdd, ha]] at he
        rcases List.mem_cons.mp he with he1 | he1
        · rw [he1]
          exact h (a, ys) (List.mem_cons_self _ _)
        · exact ih (fun e' he' => h e' (List.mem_cons_of_mem _ he')) e he1

theorem keys_nodup_importFold (st : SymbolTable) (cur : String) (imports : List String) :
    ∀ deps : List (String × List String), (deps.map Prod.fst).Nodup →
      (((imports.foldl
          (fun d imported =>
            if strContains imported waqitiNs ∧ hasKey st.classRegistry imported then
              mdictAdd cur imported d
            else d)
          deps)).map Prod.fst).Nodup := by
  induction imports with
  | nil =>
      intro deps h
      simpa using h
  | cons j rest ih =>
      intro deps h
      simp only [List.foldl_cons]
      split
      · exact ih _ (keys_nodup_mdictAdd deps cur j h)
      · exact ih _ h

theorem values_nodup_importFold (st : SymbolTable) (cur : String) (imports : List String) :
    ∀ deps : List (String × List String), (∀ e ∈ deps, e.2.Nodup) →
      ∀ e ∈ imports.foldl
          (fun d imported =>
            if strContains imported waqitiNs ∧ hasKey st.classRegistry imported then
              mdictAdd cur imported d
            else d)
          deps, e.2.Nodup := by
  induction imports with
  | nil =>
      intro deps h
      simpa using h
  | cons j rest ih =>
      intro deps h
      simp only [List.foldl_cons]
      split
      · exact ih _ (values_nodup_mdictAdd deps cur j h)
      · exact ih _ h

theorem keys_nodup_buildDepsFile (st : SymbolTable) (deps : List (String × List String))
    (f : JavaFile) (h : (deps.map Prod.fst).Nodup) :
    ((buildDepsFile st deps f).map Prod.fst).Nodup := by
  cases hp : f.packageName with
  | none => simpa [buildDepsFile, hp] using h
  | some pkg =>
      cases hc : f.classDecl with
      | none => simpa [buildDepsFile, hp, hc] using h
      | some pc =>
          simp only [buildDepsFile, hp, hc]
          exact keys_nodup_importFold st _ f.contentImports deps h

theorem values_nodup_buildDepsFile (st : SymbolTable) (deps : List (String × List String))
    (f : JavaFile) (h : ∀ e ∈ deps, e.2.Nodup) :
    ∀ e ∈ buildDepsFile st deps f, e.2.Nodup := by
  cases hp : f.packageName with
  | none => simpa [buildDepsFile, hp] using h
  | some pkg =>
      cases hc : f.classDecl with
      | none => simpa [buildDepsFile, hp, hc] using h
      | some pc =>
          simp only [buildDepsFile, hp, hc]
          exact values_nodup_importFold st _ f.contentImports deps h

theorem buildDependencies_keys_nodup (st : SymbolTable) (files : List JavaFile) :
    ((buildDependencies st files).map Prod.fst).Nodup := by
  suffices h : ∀ deps : List (String × List String), (deps.map Prod.fst).Nodup →
      ((files.foldl (buildDepsFile st) deps).map Prod.fst).Nodup by
    exact h [] (by simp)
  induction files with
  | nil =>
      intro deps h
      simpa using h
  | cons g rest ih =>
      intro deps h
      simp only [List.foldl_cons]
      exact ih _ (keys_nodup_buildDepsFile st deps g h)

theorem buildDependencies_values_nodup (st : SymbolTable) (files : List JavaFile) :
    ∀ e ∈ buildDependencies st files, e.2.Nodup := by
  suffices h : ∀ deps : List (String × List String), (∀ e ∈ deps, e.2.Nodup) →
      ∀ e ∈ files.foldl (buildDepsFile st) deps, e.2.Nodup by
    exact h [] (by simp)
  induction files with
  | nil =>
      intro deps h
      simpa using h
  | cons g rest ih =>
      intro deps h
      simp only [List.foldl_cons]
      exact ih _ (values_nodup_buildDepsFile st deps g h)

/-- C1 (amended): whenever the built dependency graph records the edge from
A to B and the edge from B to A for two distinct classes, the unordered pair
appears exactly twice in the circular-dependency list — once per
orientation — whatever the corpus and its scan order. -/
theorem circular_pair_reported_twice (st : SymbolTable) (files : List JavaFile)
    (a b : String) (hab : a ≠ b)
    (hA : b ∈ mdictGet (buildDependencies st files) a)
    (hB : a ∈ mdictGet (buildDependencies st files) b) :
    countMatch (detectCircularDependencies st files) a b = 2 := by
  have hknd := buildDependencies_keys_nodup st files
  have hvnd := buildDependencies_values_nodup st files
  unfold detectCircularDependencies
  set deps := buildDependencies st files with hdef
  obtain ⟨dsA, hla, hba⟩ : ∃ ds, List.lookup a deps = some ds ∧ b ∈ ds := by
    cases hla : List.lookup a deps with
    | none =>
        rw [mdictGet, hla] at hA
        simp at hA
    | some ds =>
        refine ⟨ds, rfl, ?_⟩
        rw [mdictGet, hla] at hA
        simpa using hA
  obtain ⟨dsB, hlb, hab2⟩ : ∃ ds, List.lookup b deps = some ds ∧ a ∈ ds := by
    cases hlb : List.lookup b deps with
    | none =>
        rw [mdictGet, hlb] at hB
        simp at hB
    | some ds =>
        refine ⟨ds, rfl, ?_⟩
        rw [mdictGet, hlb] at hB
        simpa using hB
  unfold findTwoCycles
  rw [countMatch_flatten_map]
  have hcongr : deps.map (fun e => countMatch (entryPairs deps e) a b) =
      deps.map (fun e =>
        (if e.1 = a ∧ b ∈ e.2 then 1 else 0) + (if e.1 = b ∧ a ∈ e.2 then 1 else 0)) := by
    refine List.map_congr_left fun e he => ?_
    obtain ⟨k, ds⟩ := e
    exact countMatch_entryPairs deps k ds a b hab (hvnd _ he) hA hB
  rw [hcongr, sum_map_add_split, sum_single_key deps a b hknd dsA hla hba,
    sum_single_key deps b a hknd dsB hlb hab2]

theorem circular_pair_reported_twice_witness :
    countMatch
      (detectCircularDependencies (scanAllClasses [cxFileB, cxFileA]) [cxFileB, cxFileA])
      "com.waqiti.x.A" "com.waqiti.x.B" = 2 :=
  circular_pair_reported_twice (scanAllClasses [cxFileB, cxFileA]) [cxFileB, cxFileA]
    "com.waqiti.x.A" "com.waqiti.x.B" (by decide) (by decide) (by decide)

/-- C1 counterexample: in the two-file corpus whose classes A and B import
each other, the mutual pair is emitted twice — once in each orientation —
so it does not appear exactly once. -/
theorem circular_pair_not_once :
    countMatch
      (detectCircularDependencies (scanAllClasses [cxFileA, cxFileB]) [cxFileA, cxFileB])
      "com.waqiti.x.A" "com.waqiti.x.B" = 2 ∧
    ¬ (countMatch
      (detectCircularDependencies (scanAllClasses [cxFileA, cxFileB]) [cxFileA, cxFileB])
      "com.waqiti.x.A" "com.waqiti.x.B" = 1) := by
  constructor
  · decide
  · decide

/-! ### Path filtering -/

/-- A source file living under a test directory, containing one unresolvable
internal import. -/
def testPathFile : JavaFile :=
  { path := "/repo/services/user-service/src/test/java/com/waqiti/user/UserServiceTest.java"
    packageName := some "com.waqiti.user"
    classDecl := some (true, "UserServiceTest")
    srcLines := [SrcLine.imp "com.waqiti.missing.Gone" false]
    contentImports := ["com.waqiti.missing.Gone"] }

/-- A file living under a build-output directory, as seen by the deep
validator. -/
def buildPathDeepFile : DeepFile :=
  { path := "/repo/services/user-service/target/generated-sources/com/waqiti/user/GenClass.java"
    packageName := some "com.waqiti.user"
    decls := [(true, "GenClass")] }

set_option maxRecDepth 8192 in
/-- C2 counterexample: a path containing the test-directory marker is not
excluded by `scan_all_classes` — it yields a ClassRecord and a finding — and
a path containing a build-output marker is not excluded by the deep
validator's registry builder either. -/
theorem marker_paths_not_excluded :
    hasKey (scanAllClasses [testPathFile]).classRegistry
      "com.waqiti.user.UserServiceTest" = true ∧
    validateImports (scanAllClasses [testPathFile]) [testPathFile] =
      [mkMissingImport
        "/repo/services/user-service/src/test/java/com/waqiti/user/UserServiceTest.java" 1
        "com.waqiti.missing.Gone"] ∧
    hasKey (deepClassFiles [buildPathDeepFile]) "com.waqiti.user.GenClass" = true := by
  refine ⟨by decide, by rfl, by decide⟩

/-- C2 (amended): the only path filtering in the pair of tools is the deep
validator's test-directory filter — files whose paths contain the test
markers contribute nothing to its class registry; the reference validator
itself scans every enumerated file. -/
theorem deep_registry_skips_test_paths :
    ∀ files : List DeepFile,
      deepClassFiles files =
        deepClassFiles (files.filter (fun f => !(hasTestMarker f.path))) := by
  suffices h : ∀ (files : List DeepFile) (acc : List (String × String)),
      files.foldl deepRegisterFile acc =
        (files.filter (fun f => !(hasTestMarker f.path))).foldl deepRegisterFile acc by
    intro files
    exact h files []
  intro files
  induction files with
  | nil => intro acc; rfl
  | cons f rest ih =>
      intro acc
      by_cases hm : hasTestMarker f.path
      · have hskip : deepRegisterFile acc f = acc := by
          simp [deepRegisterFile, hm]
        simp [List.filter_cons, hm, hskip, ih]
      · simp [List.filter_cons, hm, ih]

end Waqiti
